import Mathlib

/-!
Verification of `clean_and_align_redcap_data` from
`src/redcap_cleaner_streamlit.py` (lines 7-53).

The function receives a pandas DataFrame.  We embed a DataFrame shallowly:

* a cell is `Option Value` — `none` models a missing value (pandas `NaN`),
  `some (Value.str s)` a text cell, `some (Value.num n)` a numeric cell;
* a row is an association list from column name to cell; a key that is
  absent from the list behaves exactly like a `NaN` cell (as in pandas,
  where every row of a frame carries every column, missing entries being
  `NaN`);
* a table is the column list (used for the `KeyError` checks pandas
  performs when a column is accessed) together with the row list.

Pandas operations are translated cell-wise, matching the behaviour of the
source on object-dtype columns:

* `df[event_col].str.lower()` lowercases string cells and turns any
  non-string cell into `NaN` (line 15); the assignment on line 15 writes
  the result back into the caller's frame (`mutatedInput` below);
* `Series.str.contains(pat, na=False)` is substring containment on string
  cells and `False` on `NaN` (lines 18-19; the patterns used by the
  program, "profile" and "period", contain no regex metacharacters, so
  plain substring containment is the exact semantics);
* `dropna(subset=key_fields, how='all')` keeps a row iff at least one key
  field is present (line 26);
* `x.str.strip() == ''` is `True` exactly on string cells whose trim is
  empty; on `NaN` (and on non-string cells, which `.str` maps to `NaN`)
  it is `False` (line 27);
* the sort on line 45 is by the lexicographic key
  (id, Sort_Key, Repeat Instance) with missing values last
  (`na_position='last'`), and it is stable on ties (the spec allows any
  stable sort; we use `List.insertionSort`);
* `sort_values` compares `num` below `str` in mixed columns (real pandas
  would fail on such a mix; no claim exercises it).
-/

deriving instance DecidableEq for Except

namespace RedcapClean

/-- A cell value of the frame: text or numeric. -/
inductive Value where
  | str : String → Value
  | num : Int → Value
deriving DecidableEq, Repr

/-- A row: association list from column name to cell.
A missing key behaves as a `NaN` cell. -/
abbrev Row := List (String × Option Value)

/-- A table: the column list plus the rows. -/
structure Table where
  cols : List String
  rows : List Row
deriving DecidableEq, Repr

/-- Read a cell: the first entry with the given key, `none` if absent. -/
def getV : Row → String → Option Value
  | [], _ => none
  | (k, v) :: r, k2 => if k = k2 then v else getV r k2

/-- Write a column value into a row: every entry carrying the key gets the
new value (a pandas column assignment overwrites the whole column). -/
def setVal (r : Row) (k : String) (v : Option Value) : Row :=
  r.map (fun p => if p.1 = k then (k, v) else p)

/-- ASCII lowercasing of a character, as Python `str.lower` does on the
event labels involved (only basic latin letters change). -/
def lowerChar (c : Char) : Char :=
  if 65 ≤ c.toNat ∧ c.toNat ≤ 90 then Char.ofNat (c.toNat + 32) else c

/-- Lowercasing of a string, mapping `lowerChar` over its characters. -/
def lowerStr (s : String) : String := ⟨s.data.map lowerChar⟩

/-- Python `str.strip`: drop leading and trailing whitespace. -/
def stripStr (s : String) : String :=
  ⟨((s.data.dropWhile Char.isWhitespace).reverse.dropWhile Char.isWhitespace).reverse⟩

/-- `Series.str.lower` on one cell: lowercases a string cell, and maps a
non-string cell (numeric or `NaN`) to `NaN`. -/
def lowerVal : Option Value → Option Value
  | some (Value.str s) => some (Value.str (lowerStr s))
  | _ => none

/-- Line 15: `df[event_col] = df[event_col].str.lower()`, on one row. -/
def lowerEventRow (ec : String) (r : Row) : Row :=
  setVal r ec (lowerVal (getV r ec))

/-- Is `pat` a prefix of `l`? -/
def isPrefixL : List Char → List Char → Bool
  | [], _ => true
  | _ :: _, [] => false
  | a :: l, b :: m => a == b && isPrefixL l m

/-- Does `l` contain `pat` as a contiguous sublist? -/
def hasInfixL (pat : List Char) : List Char → Bool
  | [] => isPrefixL pat []
  | c :: t => isPrefixL pat (c :: t) || hasInfixL pat t

/-- Python substring containment `pat in hay` (also the semantics of
`str.contains` for the metacharacter-free patterns the program uses). -/
def containsSub (hay pat : String) : Bool := hasInfixL pat.data hay.data

/-- `df[event_col].str.contains(pat, na=False)` on one row: `False` when
the event cell is `NaN` or non-string, substring containment otherwise
(lines 18-19, applied after the lowercasing of line 15). -/
def eventMatches (ec pat : String) (r : Row) : Bool :=
  match getV r ec with
  | some (Value.str s) => containsSub s pat
  | _ => false

/-- The five key publication fields of lines 22-23. -/
def keyFields : List String :=
  ["Research output title", "APA reference citation of Publication",
   "Date of publication", "Publication Year", "Name of the publishing Journal"]

/-- Line 26, `dropna(subset=key_fields, how='all')` keeps a row iff some
key field is present (non-`NaN`). -/
def hasPresentKey (r : Row) : Bool := keyFields.any (fun k => (getV r k).isSome)

/-- One conjunct of the line 27 test: `x.str.strip() == ''` on one cell.
`True` exactly on string cells that trim to the empty string; `NaN` and
numeric cells give `False` (pandas `.str.strip()` maps them to `NaN`, and
`NaN == ''` is `False`). -/
def cellBlankStr : Option Value → Bool
  | some (Value.str s) => decide (stripStr s = "")
  | _ => false

/-- Line 27 row test: every key field is a string cell trimming to empty. -/
def allKeysBlankStr (r : Row) : Bool := keyFields.all (fun k => cellBlankStr (getV r k))

/-- Line 42 `Sort_Key`: `0 if profile_pattern in x else 1` computed on the
(lowercased) event cell; rows reaching the sort always carry a string
event (they matched a pattern), the `_ => 1` arm is unreachable there. -/
def sortKeyOf (pp ec : String) (r : Row) : Nat :=
  match getV r ec with
  | some (Value.str s) => if containsSub s pp then 0 else 1
  | _ => 1

/-- Lexicographic order on character lists by code point — how Python
compares the strings a pandas sort meets. -/
def strLE : List Char → List Char → Bool
  | [], _ => true
  | _ :: _, [] => false
  | c :: a, d :: b =>
    if c.toNat < d.toNat then true
    else if d.toNat < c.toNat then false
    else strLE a b

/-- Cell order used by `sort_values` (ascending, `NaN` last). Mixed
`num`/`str` cells are ordered `num` first; real pandas would raise on such
a mix, which no claim exercises. -/
def valLE : Option Value → Option Value → Bool
  | none, none => true
  | none, some _ => false
  | some _, none => true
  | some (Value.num a), some (Value.num b) => decide (a ≤ b)
  | some (Value.str a), some (Value.str b) => strLE a.data b.data
  | some (Value.num _), some (Value.str _) => true
  | some (Value.str _), some (Value.num _) => false

/-- The composite sort key of line 45: by id, then `Sort_Key`, then
`Repeat Instance`. -/
def rowLE (pp idc ec : String) (r s : Row) : Bool :=
  if getV r idc = getV s idc then
    if sortKeyOf pp ec r = sortKeyOf pp ec s then
      valLE (getV r "Repeat Instance") (getV s "Repeat Instance")
    else decide (sortKeyOf pp ec r < sortKeyOf pp ec s)
  else valLE (getV r idc) (getV s idc) && !(valLE (getV s idc) (getV r idc))

/-- `rowLE` as a decidable relation, for `List.insertionSort`. -/
def RowLe (pp idc ec : String) (r s : Row) : Prop := rowLE pp idc ec r s = true

instance (pp idc ec : String) : DecidableRel (RowLe pp idc ec) :=
  fun r s => inferInstanceAs (Decidable (rowLE pp idc ec r s = true))

/-- Line 48 `drop(columns=['Sort_Key'])` on one row. -/
def dropSK (r : Row) : Row := r.filter (fun p => !(decide (p.1 = "Sort_Key")))

/-- Column membership (used for the `KeyError` checks). -/
def colMem (cols : List String) (k : String) : Bool := cols.any (fun c => decide (c = k))

/-- The rows after the line 15 lowercasing of the event column. -/
def lrows (df : Table) (event_col : String) : List Row :=
  df.rows.map (lowerEventRow event_col)

/-- Line 18: the profile partition. -/
def profRows (df : Table) (profile_pattern event_col : String) : List Row :=
  (lrows df event_col).filter (eventMatches event_col profile_pattern)

/-- Line 19: the period partition, before the blank filters. -/
def periRowsAll (df : Table) (period_pattern event_col : String) : List Row :=
  (lrows df event_col).filter (eventMatches event_col period_pattern)

/-- Lines 26-27: the period partition after the two blank filters. -/
def periRows (df : Table) (period_pattern event_col : String) : List Row :=
  ((periRowsAll df period_pattern event_col).filter hasPresentKey).filter
    (fun r => !allKeysBlankStr r)

/-- Lines 30-32: does the id value occur among the profile rows and among
the surviving period rows? -/
def isValidId (df : Table) (pp qp idc ec : String) (v : Option Value) : Bool :=
  ((profRows df pp ec).map (fun r => getV r idc)).any (fun w => decide (w = v)) &&
  ((periRows df qp ec).map (fun r => getV r idc)).any (fun w => decide (w = v))

/-- Line 35: profile rows restricted to the valid ids. -/
def profKept (df : Table) (pp qp idc ec : String) : List Row :=
  (profRows df pp ec).filter (fun r => isValidId df pp qp idc ec (getV r idc))

/-- Line 36: surviving period rows restricted to the valid ids. -/
def periKept (df : Table) (pp qp idc ec : String) : List Row :=
  (periRows df qp ec).filter (fun r => isValidId df pp qp idc ec (getV r idc))

/-- Lines 39-51: concatenate, sort by (id, Sort_Key, Repeat Instance) with
a stable sort, drop the `Sort_Key` column. -/
def alignRows (df : Table) (pp qp idc ec : String) : List Row :=
  (List.insertionSort (RowLe pp idc ec)
    (profKept df pp qp idc ec ++ periKept df pp qp idc ec)).map dropSK

/-- All columns the function reads: event column (line 15), the five key
fields (lines 26-27), the id column (line 30), `Repeat Instance`
(line 45). -/
def requiredColsB (cols : List String) (idc ec : String) : Bool :=
  colMem cols ec && keyFields.all (fun k => colMem cols k) &&
  colMem cols idc && colMem cols "Repeat Instance"

/-- The whole function, lines 7-53.  Errors model the `KeyError` a pandas
column access raises, in the order the source touches the columns: event
column (line 15), key fields (line 26), id column (line 30),
`Repeat Instance` (line 45). -/
def clean_and_align_redcap_data (df : Table)
    (profile_pattern period_pattern id_col event_col : String) : Except String Table :=
  if !(colMem df.cols event_col) then .error event_col
  else
    match keyFields.find? (fun k => !(colMem df.cols k)) with
    | some k => .error k
    | none =>
      if !(colMem df.cols id_col) then .error id_col
      else if !(colMem df.cols "Repeat Instance") then .error "Repeat Instance"
      else .ok ⟨df.cols.filter (fun c => !(decide (c = "Sort_Key"))),
                alignRows df profile_pattern period_pattern id_col event_col⟩

/-- The caller's frame after the call: line 15 assigns the lowercased
event column back into the caller's `df`, so the input is mutated whenever
the event column exists (if it does not, the read on line 15 raises before
assigning and the frame is untouched).  Everything after line 15 works on
`.copy()`s or freshly built frames and leaves the input alone. -/
def mutatedInput (df : Table) (event_col : String) : Table :=
  if colMem df.cols event_col then ⟨df.cols, lrows df event_col⟩ else df

/-- Spec notion of an empty cell: absent, or text that trims to empty
(document section 4.1 step 3). -/
def specEmptyCell : Option Value → Bool
  | none => true
  | some (Value.str s) => decide (stripStr s = "")
  | some (Value.num _) => false

/-- Spec pairing invariant (document section 3): every id occurring in the
table also occurs in a profile-classified row and in a period-classified
row having some key field non-empty. -/
def pairingInvB (df : Table) (pp qp idc ec : String) : Bool :=
  df.rows.all (fun r =>
    df.rows.any (fun u => decide (getV u idc = getV r idc) && eventMatches ec pp u) &&
    df.rows.any (fun u => decide (getV u idc = getV r idc) && eventMatches ec qp u &&
      keyFields.any (fun k => !specEmptyCell (getV u k))))

/-! Concrete tables used to exercise the function (the REDCap export
columns, and rows built from id, event label, repeat instance and the
optional key-field cells). -/

/-- The full column set of a REDCap export the function reads. -/
def baseCols : List String :=
  ["Record ID", "Event Name", "Repeat Instance", "Research output title",
   "APA reference citation of Publication", "Date of publication",
   "Publication Year", "Name of the publishing Journal"]

/-- A row with the given id, event label, repeat instance and key cells. -/
def row3 (id : Int) (ev : String) (rep : Int) (kvs : List (String × Option Value)) : Row :=
  ("Record ID", some (Value.num id)) :: ("Event Name", some (Value.str ev)) ::
    ("Repeat Instance", some (Value.num rep)) :: kvs

/-- A row whose event cell is missing (`NaN`). -/
def rowNoEvent (id rep : Int) : Row :=
  [("Record ID", some (Value.num id)), ("Event Name", none),
   ("Repeat Instance", some (Value.num rep))]

/-- The spec's concrete five-row scenario: id 1 with profile and a titled
period, id 2 with profile and an empty-text-titled period, id 3 with a
titled period but no profile. -/
def c1_input : Table :=
  ⟨baseCols,
   [row3 1 "Profile" 1 [],
    row3 1 "Period" 1 [("Research output title", some (Value.str "Paper A"))],
    row3 2 "Profile" 1 [],
    row3 2 "Period" 1 [("Research output title", some (Value.str ""))],
    row3 3 "Period" 1 [("Research output title", some (Value.str "Paper B"))]]⟩

/-- What the function actually returns on `c1_input`: id 2 is kept, because
its period row (empty-string title, other key fields absent) passes both
blank filters of lines 26-27. -/
def c1_actual : Table :=
  ⟨baseCols,
   [row3 1 "profile" 1 [],
    row3 1 "period" 1 [("Research output title", some (Value.str "Paper A"))],
    row3 2 "profile" 1 [],
    row3 2 "period" 1 [("Research output title", some (Value.str ""))]]⟩

/-- Subject 1 has a profile and one period row whose only present key field
is a whitespace-only title. -/
def c2_input : Table :=
  ⟨baseCols,
   [row3 1 "Profile" 1 [],
    row3 1 "Period" 1 [("Research output title", some (Value.str " "))]]⟩

/-- The function's output on `c2_input`: the all-blank period row survives. -/
def c2_actual : Table :=
  ⟨baseCols,
   [row3 1 "profile" 1 [],
    row3 1 "period" 1 [("Research output title", some (Value.str " "))]]⟩

/-- Subject 1 with a plain profile row (repeat 2) and a row whose event
matches both patterns (repeat 1, non-blank title). -/
def c3_input : Table :=
  ⟨baseCols,
   [row3 1 "Profile" 2 [],
    row3 1 "Profile Period" 1 [("Research output title", some (Value.str "X"))]]⟩

/-- The function's output on `c3_input`: the both-pattern row is duplicated
(it is in both partitions), gets `Sort_Key` 0, and sorts before the plain
profile row by repeat instance. -/
def c3_actual : Table :=
  ⟨baseCols,
   [row3 1 "profile period" 1 [("Research output title", some (Value.str "X"))],
    row3 1 "profile period" 1 [("Research output title", some (Value.str "X"))],
    row3 1 "profile" 2 []]⟩

/-- Subject 1 qualifies through a titled period row, and additionally has a
period row whose only present key field is whitespace. -/
def c4_input : Table :=
  ⟨baseCols,
   [row3 1 "Profile" 1 [],
    row3 1 "Period" 1 [("Research output title", some (Value.str "  "))],
    row3 1 "Period" 2 [("Research output title", some (Value.str "Paper X"))]]⟩

/-- The function's output on `c4_input`: the whitespace-titled period row is
kept. -/
def c4_actual : Table :=
  ⟨baseCols,
   [row3 1 "profile" 1 [],
    row3 1 "period" 1 [("Research output title", some (Value.str "  "))],
    row3 1 "period" 2 [("Research output title", some (Value.str "Paper X"))]]⟩

/-- One row with a mixed-case event label. -/
def c5_input : Table := ⟨baseCols, [row3 7 "PROFILE Arm 1" 1 []]⟩

/-- A qualifying two-row subject, used with an empty profile pattern. -/
def c6_input : Table :=
  ⟨baseCols,
   [row3 1 "Profile" 1 [],
    row3 1 "Period" 1 [("Research output title", some (Value.str "P"))]]⟩

/-- With `profile_pattern = ""` every present event matches the profile
pattern, so both rows are profile rows and the period row is also a period
row; all three concatenated copies carry `Sort_Key` 0 and tie. -/
def c6_actual : Table :=
  ⟨baseCols,
   [row3 1 "profile" 1 [],
    row3 1 "period" 1 [("Research output title", some (Value.str "P"))],
    row3 1 "period" 1 [("Research output title", some (Value.str "P"))]]⟩

/-- A period row carrying a numeric publication year and nothing else in
the key fields. -/
def c8_row : Row := row3 4 "period visit" 1 [("Publication Year", some (Value.num 2021))]

/-- A table holding `c8_row`. -/
def c8_input : Table := ⟨baseCols, [c8_row]⟩

/-- Input for the idempotence counterexample: one subject, a plain profile
row and a row matching both patterns. -/
def c9_input : Table :=
  ⟨baseCols,
   [row3 1 "Profile" 2 [],
    row3 1 "Profile Period" 1 [("Research output title", some (Value.str "Y"))]]⟩

/-- The function's output on `c9_input` (three rows: the both-pattern row
twice, then the plain profile row). -/
def c9_once : Table :=
  ⟨baseCols,
   [row3 1 "profile period" 1 [("Research output title", some (Value.str "Y"))],
    row3 1 "profile period" 1 [("Research output title", some (Value.str "Y"))],
    row3 1 "profile" 2 []]⟩

/-- A clean qualifying subject for the idempotence witness. -/
def c9w_input : Table :=
  ⟨baseCols,
   [row3 5 "Profile" 1 [],
    row3 5 "Period" 1 [("Research output title", some (Value.str "Z"))]]⟩

/-- The function's output on `c9w_input`. -/
def c9w_once : Table :=
  ⟨baseCols,
   [row3 5 "profile" 1 [],
    row3 5 "period" 1 [("Research output title", some (Value.str "Z"))]]⟩

/-- A table containing a row with a missing event cell. -/
def c10_input : Table := ⟨baseCols, [rowNoEvent 9 1]⟩

/-! Basic lemmas about the embedding. -/

theorem getV_nil (k : String) : getV [] k = none := rfl

theorem getV_cons (k : String) (v : Option Value) (r : Row) (k2 : String) :
    getV ((k, v) :: r) k2 = if k = k2 then v else getV r k2 := rfl

theorem toNat_lowerChar (c : Char) :
    (lowerChar c).toNat = if 65 ≤ c.toNat ∧ c.toNat ≤ 90 then c.toNat + 32 else c.toNat := by
  unfold lowerChar
  split
  case isTrue h =>
    have hv : (c.toNat + 32).isValidChar := Or.inl (by omega)
    rw [Char.ofNat, dif_pos hv]
    simp [Char.ofNatAux, Char.toNat, UInt32.toNat]
  case isFalse h => rfl

theorem lowerChar_lowerChar (c : Char) : lowerChar (lowerChar c) = lowerChar c := by
  have h := toNat_lowerChar c
  have hc : ¬ (65 ≤ (lowerChar c).toNat ∧ (lowerChar c).toNat ≤ 90) := by
    split at h <;> omega
  show (if 65 ≤ (lowerChar c).toNat ∧ (lowerChar c).toNat ≤ 90 then
      Char.ofNat ((lowerChar c).toNat + 32) else lowerChar c) = lowerChar c
  rw [if_neg hc]

theorem lowerStr_lowerStr (s : String) : lowerStr (lowerStr s) = lowerStr s := by
  unfold lowerStr
  congr 1
  rw [List.map_map]
  exact List.map_congr_left (fun c _ => lowerChar_lowerChar c)

theorem lowerVal_lowerVal (v : Option Value) : lowerVal (lowerVal v) = lowerVal v := by
  rcases v with _ | w
  · rfl
  · rcases w with s | n
    · simp [lowerVal, lowerStr_lowerStr]
    · rfl

theorem getV_setVal_ne (r : Row) (k k2 : String) (v : Option Value) (h : ¬ k2 = k) :
    getV (setVal r k v) k2 = getV r k2 := by
  induction r with
  | nil => rfl
  | cons p r ih =>
    rcases p with ⟨pk, pv⟩
    simp only [setVal, List.map]
    by_cases hp : pk = k
    · rw [if_pos hp, getV_cons, getV_cons,
        if_neg (fun hh => h hh.symm), if_neg (fun hh => h (hp.symm.trans hh).symm)]
      exact ih
    · rw [if_neg hp, getV_cons, getV_cons]
      by_cases hk2 : pk = k2
      · rw [if_pos hk2, if_pos hk2]
      · rw [if_neg hk2, if_neg hk2]
        exact ih

theorem getV_lowerEventRow_ne (ec : String) (r : Row) (k : String) (h : ¬ k = ec) :
    getV (lowerEventRow ec r) k = getV r k :=
  getV_setVal_ne r ec k _ h

theorem getV_lowerEventRow_self (ec : String) (r : Row) :
    getV (lowerEventRow ec r) ec = lowerVal (getV r ec) := by
  induction r with
  | nil => rfl
  | cons p r ih =>
    rcases p with ⟨pk, pv⟩
    by_cases hp : pk = ec
    · subst hp
      simp [lowerEventRow, setVal, getV_cons]
    · simp only [lowerEventRow, setVal, List.map] at ih ⊢
      simp [hp, getV_cons, ih]

theorem setVal_setVal (r : Row) (k : String) (v w : Option Value) :
    setVal (setVal r k v) k w = setVal r k w := by
  induction r with
  | nil => rfl
  | cons p r ih =>
    rcases p with ⟨pk, pv⟩
    by_cases hp : pk = k <;> simp [setVal, hp, ih] <;>
      simpa [setVal] using ih

theorem lowerEventRow_lowerEventRow (ec : String) (r : Row) :
    lowerEventRow ec (lowerEventRow ec r) = lowerEventRow ec r := by
  show setVal (lowerEventRow ec r) ec (lowerVal (getV (lowerEventRow ec r) ec)) = lowerEventRow ec r
  rw [getV_lowerEventRow_self, lowerVal_lowerVal]
  exact setVal_setVal r ec _ _

theorem getV_dropSK (r : Row) (k : String) (h : ¬ k = "Sort_Key") :
    getV (dropSK r) k = getV r k := by
  induction r with
  | nil => rfl
  | cons p r ih =>
    rcases p with ⟨pk, pv⟩
    by_cases hp : pk = "Sort_Key"
    · subst hp
      have : ¬ ("Sort_Key" : String) = k := fun hh => h hh.symm
      simp [dropSK, getV_cons, this, ih]
      simpa [dropSK] using ih
    · simp only [dropSK, List.filter] at ih ⊢
      simp [hp, getV_cons, ih]

theorem dropSK_dropSK (r : Row) : dropSK (dropSK r) = dropSK r := by
  simp [dropSK, List.filter_filter]

theorem strLE_refl (a : List Char) : strLE a a = true := by
  induction a with
  | nil => rfl
  | cons c a ih => simp [strLE, ih]

theorem strLE_total (a b : List Char) : strLE a b = true ∨ strLE b a = true := by
  induction a generalizing b with
  | nil => exact Or.inl rfl
  | cons c a ih =>
    cases b with
    | nil => exact Or.inr rfl
    | cons d b =>
      by_cases h1 : c.toNat < d.toNat
      · exact Or.inl (by simp [strLE, h1])
      · by_cases h2 : d.toNat < c.toNat
        · exact Or.inr (by simp [strLE, h2, h1])
        · rcases ih b with h | h
          · exact Or.inl (by simp [strLE, h1, h2, h])
          · exact Or.inr (by simp [strLE, h1, h2, h])

theorem strLE_antisymm (a b : List Char) (h1 : strLE a b = true) (h2 : strLE b a = true) :
    a = b := by
  induction a generalizing b with
  | nil =>
    cases b with
    | nil => rfl
    | cons d b => simp [strLE] at h2
  | cons c a ih =>
    cases b with
    | nil => simp [strLE] at h1
    | cons d b =>
      simp only [strLE] at h1 h2
      by_cases hcd : c.toNat < d.toNat
      · rw [if_neg (by omega), if_pos hcd] at h2
        exact absurd h2 (by simp)
      · by_cases hdc : d.toNat < c.toNat
        · rw [if_pos hdc] at h2
          rw [if_neg hcd, if_pos hdc] at h1
          exact absurd h1 (by simp)
        · rw [if_neg hcd, if_neg hdc] at h1
          rw [if_neg hdc, if_neg hcd] at h2
          have h3 : c.toNat = d.toNat := by omega
          have hc : c = d := Char.eq_of_val_eq (UInt32.toNat.inj h3)
          rw [hc, ih b h1 h2]

theorem strLE_trans (a b c : List Char) (h1 : strLE a b = true) (h2 : strLE b c = true) :
    strLE a c = true := by
  induction a generalizing b c with
  | nil => rfl
  | cons x a ih =>
    cases b with
    | nil => simp [strLE] at h1
    | cons y b =>
      cases c with
      | nil => simp [strLE] at h2
      | cons z c =>
        simp only [strLE] at h1 h2 ⊢
        by_cases hxy : x.toNat < y.toNat
        · by_cases hyz : y.toNat < z.toNat
          · rw [if_pos (by omega)]
          · by_cases hzy : z.toNat < y.toNat
            · rw [if_neg hyz, if_pos hzy] at h2
              exact absurd h2 (by simp)
            · rw [if_pos (by omega)]
        · by_cases hyx : y.toNat < x.toNat
          · rw [if_neg hxy, if_pos hyx] at h1
            exact absurd h1 (by simp)
          · rw [if_neg hxy, if_neg hyx] at h1
            by_cases hyz : y.toNat < z.toNat
            · rw [if_pos (by omega)]
            · by_cases hzy : z.toNat < y.toNat
              · rw [if_neg hyz, if_pos hzy] at h2
                exact absurd h2 (by simp)
              · rw [if_neg hyz, if_neg hzy] at h2
                rw [if_neg (by omega), if_neg (by omega)]
                exact ih b c h1 h2

theorem valLE_refl (a : Option Value) : valLE a a = true := by
  rcases a with _ | v
  · rfl
  · rcases v with s | n <;> simp [valLE, strLE_refl]

theorem valLE_total (a b : Option Value) : valLE a b = true ∨ valLE b a = true := by
  rcases a with _ | v <;> rcases b with _ | w
  · simp [valLE]
  · simp [valLE]
  · simp [valLE]
  · rcases v with s | n <;> rcases w with s2 | n2 <;> simp [valLE]
    · exact strLE_total s.data s2.data
    · exact Int.le_total n n2

theorem valLE_antisymm (a b : Option Value) (h1 : valLE a b = true) (h2 : valLE b a = true) :
    a = b := by
  rcases a with _ | v <;> rcases b with _ | w
  · rfl
  · simp [valLE] at h1
  · simp [valLE] at h2
  · rcases v with s | n <;> rcases w with s2 | n2 <;> simp [valLE] at h1 h2 ⊢
    · exact String.ext (strLE_antisymm _ _ h1 h2)
    · omega

theorem valLE_trans (a b c : Option Value) (h1 : valLE a b = true) (h2 : valLE b c = true) :
    valLE a c = true := by
  rcases a with _ | (s1 | n1) <;> rcases b with _ | (s2 | n2) <;> rcases c with _ | (s3 | n3) <;>
    simp [valLE] at h1 h2 ⊢
  · exact strLE_trans _ _ _ h1 h2
  · omega

/-! The sort relation is reflexive, total and transitive. -/

theorem rowLE_refl (pp idc ec : String) (r : Row) : rowLE pp idc ec r r = true := by
  unfold rowLE
  simp [valLE_refl]

theorem rowLE_total (pp idc ec : String) (r s : Row) :
    rowLE pp idc ec r s = true ∨ rowLE pp idc ec s r = true := by
  unfold rowLE
  by_cases hid : getV r idc = getV s idc
  · rw [if_pos hid, if_pos hid.symm]
    by_cases hsk : sortKeyOf pp ec r = sortKeyOf pp ec s
    · rw [if_pos hsk, if_pos hsk.symm]
      exact valLE_total _ _
    · rw [if_neg hsk, if_neg (fun hh => hsk hh.symm)]
      rcases Nat.lt_or_ge (sortKeyOf pp ec r) (sortKeyOf pp ec s) with h | h
      · left; simpa using h
      · right; simp; omega
  · rw [if_neg hid, if_neg (fun hh => hid hh.symm)]
    rcases valLE_total (getV r idc) (getV s idc) with h | h
    · left
      have hsr : valLE (getV s idc) (getV r idc) = false := by
        cases hb : valLE (getV s idc) (getV r idc)
        · rfl
        · exact absurd (valLE_antisymm _ _ h hb) hid
      simp [h, hsr]
    · right
      have hrs : valLE (getV r idc) (getV s idc) = false := by
        cases hb : valLE (getV r idc) (getV s idc)
        · rfl
        · exact absurd (valLE_antisymm _ _ hb h) hid
      simp [h, hrs]

theorem rowLE_trans (pp idc ec : String) (r s t : Row)
    (h1 : rowLE pp idc ec r s = true) (h2 : rowLE pp idc ec s t = true) :
    rowLE pp idc ec r t = true := by
  unfold rowLE at h1 h2 ⊢
  by_cases hrs : getV r idc = getV s idc <;> by_cases hst : getV s idc = getV t idc
  · have hrt : getV r idc = getV t idc := hrs.trans hst
    rw [if_pos hrs] at h1
    rw [if_pos hst] at h2
    rw [if_pos hrt]
    by_cases hk1 : sortKeyOf pp ec r = sortKeyOf pp ec s <;>
      by_cases hk2 : sortKeyOf pp ec s = sortKeyOf pp ec t
    · rw [if_pos hk1] at h1
      rw [if_pos hk2] at h2
      rw [if_pos (hk1.trans hk2)]
      exact valLE_trans _ _ _ h1 h2
    · rw [if_neg hk2] at h2
      have h2n := of_decide_eq_true h2
      rw [if_neg (by omega : ¬ sortKeyOf pp ec r = sortKeyOf pp ec t)]
      exact decide_eq_true (by omega)
    · rw [if_neg hk1] at h1
      have h1n := of_decide_eq_true h1
      rw [if_neg (by omega : ¬ sortKeyOf pp ec r = sortKeyOf pp ec t)]
      exact decide_eq_true (by omega)
    · rw [if_neg hk1] at h1
      rw [if_neg hk2] at h2
      have h1n := of_decide_eq_true h1
      have h2n := of_decide_eq_true h2
      rw [if_neg (by omega : ¬ sortKeyOf pp ec r = sortKeyOf pp ec t)]
      exact decide_eq_true (by omega)
  · have hrt : ¬ getV r idc = getV t idc := fun hh => hst (hrs.symm.trans hh)
    rw [if_pos hrs] at h1
    rw [if_neg hst] at h2
    rw [if_neg hrt, hrs]
    exact h2
  · have hrt : ¬ getV r idc = getV t idc := fun hh => hrs (hh.trans hst.symm)
    rw [if_neg hrs] at h1
    rw [if_pos hst] at h2
    rw [if_neg hrt, ← hst]
    exact h1
  · rw [if_neg hrs] at h1
    rw [if_neg hst] at h2
    simp only [Bool.and_eq_true, Bool.not_eq_true'] at h1 h2
    have hletr : valLE (getV t idc) (getV r idc) = false := by
      cases hb : valLE (getV t idc) (getV r idc)
      · rfl
      · exact absurd (valLE_trans _ _ _ hb h1.1) (by simp [h2.2])
    have hrt : ¬ getV r idc = getV t idc := by
      intro he
      have hrr : valLE (getV t idc) (getV r idc) = true := by
        rw [he]
        exact valLE_refl _
      rw [hrr] at hletr
      simp at hletr
    rw [if_neg hrt]
    simp [valLE_trans _ _ _ h1.1 h2.1, hletr]

instance (pp idc ec : String) : IsTotal Row (RowLe pp idc ec) :=
  ⟨fun r s => rowLE_total pp idc ec r s⟩

instance (pp idc ec : String) : IsTrans Row (RowLe pp idc ec) :=
  ⟨fun r s t h1 h2 => rowLE_trans pp idc ec r s t h1 h2⟩

/-! Facts about event matching and the sort key. -/

theorem hasInfixL_nil (l : List Char) : hasInfixL [] l = true := by
  cases l <;> rfl

theorem containsSub_empty (s : String) : containsSub s "" = true :=
  hasInfixL_nil s.data

theorem sortKeyOf_eq_zero (pp ec : String) (r : Row) (h : eventMatches ec pp r = true) :
    sortKeyOf pp ec r = 0 := by
  unfold eventMatches at h
  unfold sortKeyOf
  cases hg : getV r ec with
  | none =>
    rw [hg] at h
    exact absurd h (fun hh => Bool.false_ne_true hh)
  | some v =>
    cases v with
    | str s =>
      rw [hg] at h
      have hh : containsSub s pp = true := h
      show (if containsSub s pp = true then (0 : Nat) else 1) = 0
      rw [if_pos hh]
    | num n =>
      rw [hg] at h
      exact absurd h (fun hh => Bool.false_ne_true hh)

theorem sortKeyOf_eq_one (pp ec : String) (r : Row)
    (hp : eventMatches ec pp r = false) :
    sortKeyOf pp ec r = 1 := by
  unfold eventMatches at hp
  unfold sortKeyOf
  cases hg : getV r ec with
  | none => rfl
  | some v =>
    cases v with
    | str s =>
      rw [hg] at hp
      have hh : containsSub s pp = false := hp
      show (if containsSub s pp = true then (0 : Nat) else 1) = 1
      rw [if_neg (fun hc => Bool.false_ne_true (hh ▸ hc))]
    | num n => rfl

theorem eventMatches_some_str (ec pat : String) (r : Row) (h : eventMatches ec pat r = true) :
    ∃ s, getV r ec = some (Value.str s) := by
  unfold eventMatches at h
  cases hg : getV r ec with
  | none =>
    rw [hg] at h
    exact absurd h (fun hh => Bool.false_ne_true hh)
  | some v =>
    cases v with
    | str s => exact ⟨s, rfl⟩
    | num n =>
      rw [hg] at h
      exact absurd h (fun hh => Bool.false_ne_true hh)

/-! Dropping the `Sort_Key` column does not affect any field the pipeline
reads (no read column is called `Sort_Key`). -/

theorem keyFields_ne_SK : ∀ k ∈ keyFields, ¬ k = "Sort_Key" := by decide

theorem eventMatches_dropSK (ec pat : String) (r : Row) (h : ¬ ec = "Sort_Key") :
    eventMatches ec pat (dropSK r) = eventMatches ec pat r := by
  unfold eventMatches
  rw [getV_dropSK r ec h]

theorem sortKeyOf_dropSK (pp ec : String) (r : Row) (h : ¬ ec = "Sort_Key") :
    sortKeyOf pp ec (dropSK r) = sortKeyOf pp ec r := by
  unfold sortKeyOf
  rw [getV_dropSK r ec h]

theorem hasPresentKey_dropSK (r : Row) : hasPresentKey (dropSK r) = hasPresentKey r := by
  simp only [hasPresentKey, keyFields, List.any_cons, List.any_nil]
  rw [getV_dropSK r "Research output title" (by decide),
    getV_dropSK r "APA reference citation of Publication" (by decide),
    getV_dropSK r "Date of publication" (by decide),
    getV_dropSK r "Publication Year" (by decide),
    getV_dropSK r "Name of the publishing Journal" (by decide)]

theorem allKeysBlankStr_dropSK (r : Row) : allKeysBlankStr (dropSK r) = allKeysBlankStr r := by
  simp only [allKeysBlankStr, keyFields, List.all_cons, List.all_nil]
  rw [getV_dropSK r "Research output title" (by decide),
    getV_dropSK r "APA reference citation of Publication" (by decide),
    getV_dropSK r "Date of publication" (by decide),
    getV_dropSK r "Publication Year" (by decide),
    getV_dropSK r "Name of the publishing Journal" (by decide)]

theorem rowLE_dropSK (pp idc ec : String) (r s : Row)
    (hi : ¬ idc = "Sort_Key") (he : ¬ ec = "Sort_Key") :
    rowLE pp idc ec (dropSK r) (dropSK s) = rowLE pp idc ec r s := by
  unfold rowLE
  rw [getV_dropSK r idc hi, getV_dropSK s idc hi, sortKeyOf_dropSK pp ec r he,
    sortKeyOf_dropSK pp ec s he, getV_dropSK r "Repeat Instance" (by decide),
    getV_dropSK s "Repeat Instance" (by decide)]

/-! Characterisation of the success and error paths of the function. -/

theorem align_ok_of_required (df : Table) (pp qp idc ec : String)
    (h : requiredColsB df.cols idc ec = true) :
    clean_and_align_redcap_data df pp qp idc ec =
      .ok ⟨df.cols.filter (fun c => !(decide (c = "Sort_Key"))), alignRows df pp qp idc ec⟩ := by
  unfold requiredColsB at h
  simp only [Bool.and_eq_true] at h
  obtain ⟨⟨⟨h1, h2⟩, h3⟩, h4⟩ := h
  have hf : keyFields.find? (fun k => !(colMem df.cols k)) = none := by
    rw [List.find?_eq_none]
    intro k hk
    rw [List.all_eq_true] at h2
    simp [h2 k hk]
  simp [clean_and_align_redcap_data, h1, h3, h4, hf]

theorem align_ok_elim (df : Table) (pp qp idc ec : String) (out : Table)
    (h : clean_and_align_redcap_data df pp qp idc ec = .ok out) :
    requiredColsB df.cols idc ec = true ∧
      out.cols = df.cols.filter (fun c => !(decide (c = "Sort_Key"))) ∧
      out.rows = alignRows df pp qp idc ec := by
  unfold clean_and_align_redcap_data at h
  split at h
  next hev => simp at h
  next hev =>
    split at h
    next k hkf => simp at h
    next hkf =>
      split at h
      next hid2 => simp at h
      next hid2 =>
        split at h
        next hri => simp at h
        next hri =>
          have hok := Except.ok.inj h
          refine ⟨?_, ?_, ?_⟩
          · unfold requiredColsB
            have e1 : colMem df.cols ec = true := by
              revert hev; cases colMem df.cols ec <;> simp
            have e3 : colMem df.cols idc = true := by
              revert hid2; cases colMem df.cols idc <;> simp
            have e4 : colMem df.cols "Repeat Instance" = true := by
              revert hri; cases colMem df.cols "Repeat Instance" <;> simp
            have e2 : keyFields.all (fun k => colMem df.cols k) = true := by
              rw [List.all_eq_true]
              intro k hk
              have hn := List.find?_eq_none.mp hkf k hk
              revert hn; cases colMem df.cols k <;> simp
            simp [e1, e2, e3, e4]
          · rw [← hok]
          · rw [← hok]

/-! A stable sort applied to the two filter-halves of an already sorted
list gives the list back, provided no element of one half ties with an
element of the other.  This is the heart of the idempotence analysis. -/

theorem sorted_eq_of_perm_filters {α : Type} {le : α → α → Prop} {p : α → Bool}
    (hrefl : ∀ a, le a a)
    (huntied : ∀ x y, p x = true → p y = false → ¬(le x y ∧ le y x)) :
    ∀ (l m : List α), m.Perm l → l.Pairwise le → m.Pairwise le →
      l.filter p = m.filter p → l.filter (fun a => !p a) = m.filter (fun a => !p a) →
      m = l := by
  intro l
  induction l with
  | nil =>
    intro m hperm _ _ _ _
    exact List.perm_nil.mp hperm
  | cons a l ih =>
    intro m hperm hl hm hfp hfq
    cases m with
    | nil => exact absurd (List.perm_nil.mp hperm.symm) (by simp)
    | cons b m2 =>
      have hab : le a b := by
        have hbmem : b ∈ a :: l := hperm.mem_iff.mp (List.mem_cons_self b m2)
        rcases List.mem_cons.mp hbmem with he | hmem
        · exact he ▸ hrefl a
        · exact (List.pairwise_cons.mp hl).1 b hmem
      have hba : le b a := by
        have hamem : a ∈ b :: m2 := hperm.symm.mem_iff.mp (List.mem_cons_self a l)
        rcases List.mem_cons.mp hamem with he | hmem
        · exact he ▸ hrefl b
        · exact (List.pairwise_cons.mp hm).1 a hmem
      have hpab : p a = p b := by
        cases hpa : p a <;> cases hpb : p b
        · rfl
        · exact absurd ⟨hba, hab⟩ (huntied b a hpb hpa)
        · exact absurd ⟨hab, hba⟩ (huntied a b hpa hpb)
        · rfl
      cases hpa : p a with
      | true =>
        rw [List.filter_cons_of_pos hpa, List.filter_cons_of_pos (hpab ▸ hpa)] at hfp
        have hhd : a = b := (List.cons.inj hfp).1
        subst hhd
        have htl : l.filter p = m2.filter p := (List.cons.inj hfp).2
        have hqa : (fun x => !p x) a = false := by simp [hpa]
        rw [List.filter_cons_of_neg (by simp [hpa]), List.filter_cons_of_neg (by simp [hpa])] at hfq
        have hm2 : m2 = l :=
          ih m2 (hperm.cons_inv) (List.pairwise_cons.mp hl).2 (List.pairwise_cons.mp hm).2
            htl hfq
        rw [hm2]
      | false =>
        rw [List.filter_cons_of_neg (by simp [hpa]), List.filter_cons_of_neg (by simp [hpab ▸ hpa])] at hfp
        rw [List.filter_cons_of_pos (by simp [hpa]), List.filter_cons_of_pos (by simp [hpab ▸ hpa])] at hfq
        have hhd : a = b := (List.cons.inj hfq).1
        subst hhd
        have htl : l.filter (fun x => !p x) = m2.filter (fun x => !p x) := (List.cons.inj hfq).2
        have hm2 : m2 = l :=
          ih m2 (hperm.cons_inv) (List.pairwise_cons.mp hl).2 (List.pairwise_cons.mp hm).2
            hfp htl
        rw [hm2]

/-- Stable sorting the two filter-halves of a sorted list, concatenated,
recovers the list. -/
theorem insertionSort_filter_partition {α : Type} {le : α → α → Prop} [DecidableRel le]
    [IsTotal α le] [IsTrans α le] {p : α → Bool}
    (hrefl : ∀ a, le a a)
    (huntied : ∀ x y, p x = true → p y = false → ¬(le x y ∧ le y x))
    (l : List α) (hl : l.Pairwise le) :
    List.insertionSort le (l.filter p ++ l.filter (fun a => !p a)) = l := by
  have hmsort : (List.insertionSort le (l.filter p ++ l.filter (fun a => !p a))).Pairwise le :=
    List.sorted_insertionSort le _
  have hmperm : (List.insertionSort le (l.filter p ++ l.filter (fun a => !p a))).Perm l :=
    (List.perm_insertionSort le _).trans (List.filter_append_perm p l)
  set m := List.insertionSort le (l.filter p ++ l.filter (fun a => !p a)) with hmdef
  have hApw : (l.filter p).Pairwise le := hl.sublist (List.filter_sublist l)
  have hBpw : (l.filter (fun a => !p a)).Pairwise le := hl.sublist (List.filter_sublist l)
  have hAsub : (l.filter p).Sublist m :=
    List.sublist_insertionSort hApw (List.sublist_append_left _ _)
  have hBsub : (l.filter (fun a => !p a)).Sublist m :=
    List.sublist_insertionSort hBpw (List.sublist_append_right _ _)
  have hAfix : (l.filter p).filter p = l.filter p :=
    List.filter_eq_self.mpr (fun a ha => (List.mem_filter.mp ha).2)
  have hBfix : (l.filter (fun a => !p a)).filter (fun a => !p a) = l.filter (fun a => !p a) :=
    List.filter_eq_self.mpr (fun a ha => (List.mem_filter.mp ha).2)
  have h1 : (l.filter p).Sublist (m.filter p) := by
    have hs := List.Sublist.filter p hAsub
    rwa [hAfix] at hs
  have h2 : (m.filter p).Perm (l.filter p) := hmperm.filter p
  have hfpm : l.filter p = m.filter p := h1.eq_of_length h2.length_eq.symm
  have h3 : (l.filter (fun a => !p a)).Sublist (m.filter (fun a => !p a)) := by
    have hs := List.Sublist.filter (fun a => !p a) hBsub
    rwa [hBfix] at hs
  have h4 : (m.filter (fun a => !p a)).Perm (l.filter (fun a => !p a)) :=
    hmperm.filter (fun a => !p a)
  have hfqm : l.filter (fun a => !p a) = m.filter (fun a => !p a) :=
    h3.eq_of_length h4.length_eq.symm
  exact sorted_eq_of_perm_filters hrefl huntied l m hmperm hl hmsort hfpm hfqm

/-! Helpers for running the pipeline on its own output. -/

theorem map_eq_self_of_mem {α : Type} {f : α → α} :
    ∀ l : List α, (∀ a ∈ l, f a = a) → l.map f = l := by
  intro l h
  induction l with
  | nil => rfl
  | cons a l ih =>
    rw [List.map_cons, h a (List.mem_cons_self a l), ih (fun b hb => h b (List.mem_cons_of_mem a hb))]

theorem dropSK_setVal (r : Row) (ec : String) (v : Option Value) (h : ¬ ec = "Sort_Key") :
    dropSK (setVal r ec v) = setVal (dropSK r) ec v := by
  induction r with
  | nil => rfl
  | cons p r ih =>
    rcases p with ⟨pk, pv⟩
    simp only [setVal, dropSK] at ih
    have h2 : ¬ "Sort_Key" = ec := fun hh => h hh.symm
    by_cases hp : pk = ec
    · subst hp
      simp [setVal, dropSK, List.filter_cons, h, ih]
    · by_cases hsk : pk = "Sort_Key" <;>
        simp [setVal, dropSK, List.filter_cons, hp, hsk, h2, ih]

theorem lowerEventRow_dropSK (ec : String) (r : Row) (h : ¬ ec = "Sort_Key") :
    lowerEventRow ec (dropSK r) = dropSK (lowerEventRow ec r) := by
  show setVal (dropSK r) ec (lowerVal (getV (dropSK r) ec)) =
    dropSK (setVal r ec (lowerVal (getV r ec)))
  rw [getV_dropSK r ec h, dropSK_setVal r ec _ h]

theorem colMem_iff (cols : List String) (k : String) : colMem cols k = true ↔ k ∈ cols := by
  unfold colMem
  rw [List.any_eq_true]
  constructor
  · rintro ⟨c, hc, hck⟩
    exact (of_decide_eq_true hck) ▸ hc
  · intro hk
    exact ⟨k, hk, by simp⟩

theorem mem_alignRows (df : Table) (pp qp idc ec : String) (r : Row) :
    r ∈ alignRows df pp qp idc ec ↔
      ∃ r2, (r2 ∈ profKept df pp qp idc ec ∨ r2 ∈ periKept df pp qp idc ec) ∧ dropSK r2 = r := by
  unfold alignRows
  simp [List.mem_map, List.mem_insertionSort, List.mem_append]

theorem profKept_elim (df : Table) (pp qp idc ec : String) (r : Row)
    (h : r ∈ profKept df pp qp idc ec) :
    r ∈ lrows df ec ∧ eventMatches ec pp r = true ∧
      isValidId df pp qp idc ec (getV r idc) = true := by
  obtain ⟨hm, hv⟩ := List.mem_filter.mp h
  obtain ⟨hl, hmp⟩ := List.mem_filter.mp hm
  exact ⟨hl, hmp, hv⟩

theorem periKept_elim (df : Table) (pp qp idc ec : String) (r : Row)
    (h : r ∈ periKept df pp qp idc ec) :
    r ∈ lrows df ec ∧ eventMatches ec qp r = true ∧ hasPresentKey r = true ∧
      allKeysBlankStr r = false ∧ isValidId df pp qp idc ec (getV r idc) = true := by
  obtain ⟨hm, hv⟩ := List.mem_filter.mp h
  obtain ⟨hm2, hbl⟩ := List.mem_filter.mp hm
  obtain ⟨hm3, hpk⟩ := List.mem_filter.mp hm2
  obtain ⟨hl, hmq⟩ := List.mem_filter.mp hm3
  refine ⟨hl, hmq, hpk, ?_, hv⟩
  cases hb : allKeysBlankStr r
  · rfl
  · rw [hb] at hbl
    exact absurd hbl (by simp)

theorem isValidId_iff (df : Table) (pp qp idc ec : String) (v : Option Value) :
    isValidId df pp qp idc ec v = true ↔
      (∃ a ∈ profRows df pp ec, getV a idc = v) ∧
      (∃ a ∈ periRows df qp ec, getV a idc = v) := by
  unfold isValidId
  simp only [Bool.and_eq_true, List.any_eq_true, List.mem_map]
  constructor
  · rintro ⟨⟨x, ⟨a, ha, hax⟩, hxv⟩, ⟨y, ⟨b, hb, hby⟩, hyv⟩⟩
    exact ⟨⟨a, ha, hax.trans (of_decide_eq_true hxv)⟩,
           ⟨b, hb, hby.trans (of_decide_eq_true hyv)⟩⟩
  · rintro ⟨⟨a, ha, hav⟩, ⟨b, hb, hbv⟩⟩
    exact ⟨⟨v, ⟨a, ha, hav⟩, by simp⟩, ⟨v, ⟨b, hb, hbv⟩, by simp⟩⟩

theorem rowLE_untied (pp idc ec : String) (x y : Row)
    (hx : eventMatches ec pp x = true) (hy : eventMatches ec pp y = false) :
    ¬(rowLE pp idc ec x y = true ∧ rowLE pp idc ec y x = true) := by
  rintro ⟨h1, h2⟩
  unfold rowLE at h1 h2
  have hskx := sortKeyOf_eq_zero pp ec x hx
  have hsky := sortKeyOf_eq_one pp ec y hy
  by_cases hid : getV x idc = getV y idc
  · rw [if_pos hid.symm] at h2
    rw [if_neg (by omega)] at h2
    exact absurd (of_decide_eq_true h2) (by omega)
  · rw [if_neg hid] at h1
    rw [if_neg (fun hh => hid hh.symm)] at h2
    simp only [Bool.and_eq_true, Bool.not_eq_true'] at h1 h2
    exact absurd h1.1 (by simp [h2.2])

theorem alignRows_pairwise (df : Table) (pp qp idc ec : String)
    (hi : ¬ idc = "Sort_Key") (he : ¬ ec = "Sort_Key") :
    (alignRows df pp qp idc ec).Pairwise (RowLe pp idc ec) := by
  unfold alignRows
  rw [List.pairwise_map]
  refine (List.sorted_insertionSort (RowLe pp idc ec) _).imp ?_
  intro a b hab
  show rowLE pp idc ec (dropSK a) (dropSK b) = true
  rw [rowLE_dropSK pp idc ec a b hi he]
  exact hab

theorem periRows_elim (df : Table) (qp ec : String) (r : Row)
    (h : r ∈ periRows df qp ec) :
    r ∈ lrows df ec ∧ eventMatches ec qp r = true ∧ hasPresentKey r = true ∧
      allKeysBlankStr r = false := by
  obtain ⟨hm2, hbl⟩ := List.mem_filter.mp h
  obtain ⟨hm3, hpk⟩ := List.mem_filter.mp hm2
  obtain ⟨hl, hmq⟩ := List.mem_filter.mp hm3
  refine ⟨hl, hmq, hpk, ?_⟩
  cases hb : allKeysBlankStr r
  · rfl
  · rw [hb] at hbl
    exact absurd hbl (by simp)

theorem requiredColsB_filterSK (cols : List String) (idc ec : String)
    (h : requiredColsB cols idc ec = true) (hi : ¬ idc = "Sort_Key") (he : ¬ ec = "Sort_Key") :
    requiredColsB (cols.filter (fun c => !(decide (c = "Sort_Key")))) idc ec = true := by
  unfold requiredColsB at h ⊢
  simp only [Bool.and_eq_true] at h ⊢
  obtain ⟨⟨⟨h1, h2⟩, h3⟩, h4⟩ := h
  refine ⟨⟨⟨?_, ?_⟩, ?_⟩, ?_⟩
  · rw [colMem_iff] at h1 ⊢
    exact List.mem_filter.mpr ⟨h1, by simp [he]⟩
  · rw [List.all_eq_true] at h2 ⊢
    intro k hk
    rw [colMem_iff]
    exact List.mem_filter.mpr ⟨(colMem_iff cols k).mp (h2 k hk), by simp [keyFields_ne_SK k hk]⟩
  · rw [colMem_iff] at h3 ⊢
    exact List.mem_filter.mpr ⟨h3, by simp [hi]⟩
  · rw [colMem_iff] at h4 ⊢
    exact List.mem_filter.mpr ⟨h4, by simp⟩

/-- Running the transform on its own output returns the output unchanged,
as long as no output row's event matches both patterns. -/
theorem align_fixpoint (pp qp : String) (df out : Table)
    (h : clean_and_align_redcap_data df pp qp "Record ID" "Event Name" = .ok out)
    (hnd : ∀ r ∈ out.rows, ¬(eventMatches "Event Name" pp r = true ∧
      eventMatches "Event Name" qp r = true)) :
    clean_and_align_redcap_data out pp qp "Record ID" "Event Name" = .ok out := by
  obtain ⟨hreq, hcols, hrows⟩ := align_ok_elim df pp qp "Record ID" "Event Name" out h
  have hmem : ∀ r ∈ out.rows, ∃ r2,
      (r2 ∈ profKept df pp qp "Record ID" "Event Name" ∨
       r2 ∈ periKept df pp qp "Record ID" "Event Name") ∧ dropSK r2 = r := by
    intro r hr
    rw [hrows] at hr
    exact (mem_alignRows df pp qp "Record ID" "Event Name" r).mp hr
  have hfix : ∀ r ∈ out.rows, lowerEventRow "Event Name" r = r := by
    intro r hr
    obtain ⟨r2, hr2, hdr⟩ := hmem r hr
    have hl : r2 ∈ lrows df "Event Name" := by
      rcases hr2 with h2 | h2
      · exact (profKept_elim df pp qp "Record ID" "Event Name" r2 h2).1
      · exact (periKept_elim df pp qp "Record ID" "Event Name" r2 h2).1
    obtain ⟨r0, _, hr0⟩ := List.mem_map.mp hl
    rw [← hdr, ← hr0, lowerEventRow_dropSK "Event Name" _ (by decide),
      lowerEventRow_lowerEventRow]
  have hlr_out : lrows out "Event Name" = out.rows := map_eq_self_of_mem out.rows hfix
  have hclass : ∀ r ∈ out.rows, eventMatches "Event Name" pp r = true ∨
      eventMatches "Event Name" qp r = true := by
    intro r hr
    obtain ⟨r2, hr2, hdr⟩ := hmem r hr
    rcases hr2 with h2 | h2
    · left
      rw [← hdr, eventMatches_dropSK "Event Name" pp r2 (by decide)]
      exact (profKept_elim df pp qp "Record ID" "Event Name" r2 h2).2.1
    · right
      rw [← hdr, eventMatches_dropSK "Event Name" qp r2 (by decide)]
      exact (periKept_elim df pp qp "Record ID" "Event Name" r2 h2).2.1
  have hqprop : ∀ r ∈ out.rows, eventMatches "Event Name" qp r = true →
      hasPresentKey r = true ∧ allKeysBlankStr r = false := by
    intro r hr hq
    obtain ⟨r2, hr2, hdr⟩ := hmem r hr
    rcases hr2 with h2 | h2
    · exfalso
      refine hnd r hr ⟨?_, hq⟩
      rw [← hdr, eventMatches_dropSK "Event Name" pp r2 (by decide)]
      exact (profKept_elim df pp qp "Record ID" "Event Name" r2 h2).2.1
    · obtain ⟨_, _, hpk, hbl, _⟩ := periKept_elim df pp qp "Record ID" "Event Name" r2 h2
      rw [← hdr, hasPresentKey_dropSK, allKeysBlankStr_dropSK]
      exact ⟨hpk, hbl⟩
  have hmq_eq : ∀ r ∈ out.rows,
      eventMatches "Event Name" qp r = (!(eventMatches "Event Name" pp r)) := by
    intro r hr
    cases hp : eventMatches "Event Name" pp r
    · rcases hclass r hr with hc | hc
      · rw [hp] at hc
        exact absurd hc (by simp)
      · rw [hc]
        rfl
    · cases hq : eventMatches "Event Name" qp r
      · rfl
      · exact absurd ⟨hp, hq⟩ (hnd r hr)
  have hprof_out : profRows out pp "Event Name" =
      out.rows.filter (eventMatches "Event Name" pp) := by
    unfold profRows
    rw [hlr_out]
  have hperi_out : periRows out qp "Event Name" =
      out.rows.filter (eventMatches "Event Name" qp) := by
    unfold periRows periRowsAll
    rw [hlr_out]
    have e1 : (out.rows.filter (eventMatches "Event Name" qp)).filter hasPresentKey =
        out.rows.filter (eventMatches "Event Name" qp) := by
      apply List.filter_eq_self.mpr
      intro a ha
      exact (hqprop a (List.mem_filter.mp ha).1 (List.mem_filter.mp ha).2).1
    rw [e1]
    apply List.filter_eq_self.mpr
    intro a ha
    rw [(hqprop a (List.mem_filter.mp ha).1 (List.mem_filter.mp ha).2).2]
    rfl
  have hvalid_out : ∀ r ∈ out.rows,
      isValidId out pp qp "Record ID" "Event Name" (getV r "Record ID") = true := by
    intro r hr
    obtain ⟨r2, hr2, hdr⟩ := hmem r hr
    have hval2 : isValidId df pp qp "Record ID" "Event Name" (getV r2 "Record ID") = true := by
      rcases hr2 with h2 | h2
      · exact (profKept_elim df pp qp "Record ID" "Event Name" r2 h2).2.2
      · exact (periKept_elim df pp qp "Record ID" "Event Name" r2 h2).2.2.2.2
    obtain ⟨⟨a, ha, hav⟩, ⟨b, hb, hbv⟩⟩ :=
      (isValidId_iff df pp qp "Record ID" "Event Name" (getV r2 "Record ID")).mp hval2
    have haK : a ∈ profKept df pp qp "Record ID" "Event Name" :=
      List.mem_filter.mpr ⟨ha, by rw [hav]; exact hval2⟩
    have hbK : b ∈ periKept df pp qp "Record ID" "Event Name" :=
      List.mem_filter.mpr ⟨hb, by rw [hbv]; exact hval2⟩
    have haOut : dropSK a ∈ out.rows := by
      rw [hrows]
      exact (mem_alignRows df pp qp "Record ID" "Event Name" (dropSK a)).mpr ⟨a, Or.inl haK, rfl⟩
    have hbOut : dropSK b ∈ out.rows := by
      rw [hrows]
      exact (mem_alignRows df pp qp "Record ID" "Event Name" (dropSK b)).mpr ⟨b, Or.inr hbK, rfl⟩
    have hmpa : eventMatches "Event Name" pp (dropSK a) = true := by
      rw [eventMatches_dropSK "Event Name" pp a (by decide)]
      exact (List.mem_filter.mp ha).2
    have hmqb : eventMatches "Event Name" qp (dropSK b) = true := by
      rw [eventMatches_dropSK "Event Name" qp b (by decide)]
      exact (periRows_elim df qp "Event Name" b hb).2.1
    have hgr : getV r "Record ID" = getV r2 "Record ID" := by
      rw [← hdr, getV_dropSK r2 "Record ID" (by decide)]
    rw [isValidId_iff]
    constructor
    · refine ⟨dropSK a, ?_, ?_⟩
      · rw [hprof_out]
        exact List.mem_filter.mpr ⟨haOut, hmpa⟩
      · rw [getV_dropSK a "Record ID" (by decide), hav, hgr]
    · refine ⟨dropSK b, ?_, ?_⟩
      · rw [hperi_out]
        exact List.mem_filter.mpr ⟨hbOut, hmqb⟩
      · rw [getV_dropSK b "Record ID" (by decide), hbv, hgr]
  have hprofKept_out : profKept out pp qp "Record ID" "Event Name" =
      out.rows.filter (eventMatches "Event Name" pp) := by
    unfold profKept
    rw [hprof_out]
    apply List.filter_eq_self.mpr
    intro a ha
    exact hvalid_out a (List.mem_filter.mp ha).1
  have hperiKept_out : periKept out pp qp "Record ID" "Event Name" =
      out.rows.filter (eventMatches "Event Name" qp) := by
    unfold periKept
    rw [hperi_out]
    apply List.filter_eq_self.mpr
    intro a ha
    exact hvalid_out a (List.mem_filter.mp ha).1
  have hpair : out.rows.Pairwise (RowLe pp "Record ID" "Event Name") := by
    rw [hrows]
    exact alignRows_pairwise df pp qp "Record ID" "Event Name" (by decide) (by decide)
  have hsort : List.insertionSort (RowLe pp "Record ID" "Event Name")
      (out.rows.filter (eventMatches "Event Name" pp) ++
        out.rows.filter (fun r => !(eventMatches "Event Name" pp r))) = out.rows :=
    @insertionSort_filter_partition Row (RowLe pp "Record ID" "Event Name")
      inferInstance inferInstance inferInstance (eventMatches "Event Name" pp)
      (fun a => rowLE_refl pp "Record ID" "Event Name" a)
      (fun x y hx hy hc => rowLE_untied pp "Record ID" "Event Name" x y hx hy hc)
      out.rows hpair
  have hfilter_q : out.rows.filter (eventMatches "Event Name" qp) =
      out.rows.filter (fun r => !(eventMatches "Event Name" pp r)) :=
    List.filter_congr hmq_eq
  have halign_out : alignRows out pp qp "Record ID" "Event Name" = out.rows := by
    unfold alignRows
    rw [hprofKept_out, hperiKept_out, hfilter_q, hsort]
    apply map_eq_self_of_mem
    intro r hr
    obtain ⟨r2, _, hdr⟩ := hmem r hr
    rw [← hdr, dropSK_dropSK]
  have hreq2 : requiredColsB out.cols "Record ID" "Event Name" = true := by
    rw [hcols]
    exact requiredColsB_filterSK df.cols "Record ID" "Event Name" hreq (by decide) (by decide)
  rw [align_ok_of_required out pp qp "Record ID" "Event Name" hreq2]
  have hcolsfix : out.cols.filter (fun c => !(decide (c = "Sort_Key"))) = out.cols := by
    rw [hcols]
    exact List.filter_eq_self.mpr (fun a ha => (List.mem_filter.mp ha).2)
  rw [hcolsfix, halign_out]

theorem getD_map_row (l : List Row) (f : Row → Row) (hf : f [] = []) (i : Nat) :
    (l.map f).getD i [] = f (l.getD i []) := by
  rw [List.getD_eq_getElem?_getD, List.getD_eq_getElem?_getD, List.getElem?_map]
  cases l[i]? <;> simp [hf]

/-! The claims. -/

/-- C1: on the spec's five-row scenario the function does not return only
id 1's two rows: it returns four rows, keeping id 2's profile and its
blank period row (empty-string title, other key fields absent), because
that row passes both blank filters of lines 26-27. -/
theorem c1_concrete_scenario :
    clean_and_align_redcap_data c1_input "profile" "period" "Record ID" "Event Name" =
      .ok c1_actual ∧
    c1_actual.rows.length = 4 ∧
    (c1_actual.rows.any fun r => decide (getV r "Record ID" = some (Value.num 2))) = true := by
  decide

/-- C2: the output invariant fails on the code.  For `c2_input` the output
is non-empty (subject 1 is kept), yet every period-classified output row
has all five key fields empty in the spec's sense (absent or
whitespace-only): the whitespace-titled period row alone qualified the
subject. -/
theorem c2_invariant_failure :
    clean_and_align_redcap_data c2_input "profile" "period" "Record ID" "Event Name" =
      .ok c2_actual ∧
    c2_actual.rows ≠ [] ∧
    (∀ r ∈ c2_actual.rows, eventMatches "Event Name" "period" r = true →
      keyFields.all (fun k => specEmptyCell (getV r k)) = true) := by
  decide

/-- C3 (counterexample): in the output for `c3_input`, a Period-classified
row (index 0) precedes a Profile-classified row (index 2) of the same
subject, because a row matching both patterns gets `Sort_Key` 0 and sorts
among the profile rows. -/
theorem c3_order_counterexample :
    clean_and_align_redcap_data c3_input "profile" "period" "Record ID" "Event Name" =
      .ok c3_actual ∧
    eventMatches "Event Name" "period" (c3_actual.rows.getD 0 []) = true ∧
    eventMatches "Event Name" "profile" (c3_actual.rows.getD 2 []) = true ∧
    getV (c3_actual.rows.getD 0 []) "Record ID" =
      getV (c3_actual.rows.getD 2 []) "Record ID" := by
  decide

/-- C3 (amended): within a subject the output is grouped by the line 42
`Sort_Key` — "event contains `profile_pattern`" versus not — with the
`Sort_Key` 0 group first, and within equal `Sort_Key` the rows are
non-decreasing in `Repeat Instance` (in the code's missing-last cell
order).  The code groups by containing the profile pattern, not by Period
classification, so a row matching both patterns sorts with the profiles. -/
theorem c3_group_sorted (pp qp : String) (df out : Table)
    (h : clean_and_align_redcap_data df pp qp "Record ID" "Event Name" = .ok out)
    (i j : Nat) (hij : i < j) (hj : j < out.rows.length)
    (hid : getV (out.rows.getD i []) "Record ID" = getV (out.rows.getD j []) "Record ID") :
    sortKeyOf pp "Event Name" (out.rows.getD i []) ≤
      sortKeyOf pp "Event Name" (out.rows.getD j []) ∧
    (sortKeyOf pp "Event Name" (out.rows.getD i []) =
        sortKeyOf pp "Event Name" (out.rows.getD j []) →
      valLE (getV (out.rows.getD i []) "Repeat Instance")
        (getV (out.rows.getD j []) "Repeat Instance") = true) := by
  obtain ⟨_, _, hrows⟩ := align_ok_elim df pp qp "Record ID" "Event Name" out h
  have hi : i < out.rows.length := Nat.lt_trans hij hj
  have hpw : out.rows.Pairwise (RowLe pp "Record ID" "Event Name") := by
    rw [hrows]
    exact alignRows_pairwise df pp qp "Record ID" "Event Name" (by decide) (by decide)
  have hrel := List.pairwise_iff_get.mp hpw ⟨i, hi⟩ ⟨j, hj⟩ hij
  have ei : out.rows.getD i [] = out.rows.get ⟨i, hi⟩ := by
    rw [List.getD_eq_getElem?_getD, List.getElem?_eq_getElem hi]
    rfl
  have ej : out.rows.getD j [] = out.rows.get ⟨j, hj⟩ := by
    rw [List.getD_eq_getElem?_getD, List.getElem?_eq_getElem hj]
    rfl
  rw [ei, ej] at hid ⊢
  unfold RowLe rowLE at hrel
  rw [if_pos hid] at hrel
  by_cases hk : sortKeyOf pp "Event Name" (out.rows.get ⟨i, hi⟩) =
      sortKeyOf pp "Event Name" (out.rows.get ⟨j, hj⟩)
  · rw [if_pos hk] at hrel
    exact ⟨Nat.le_of_eq hk, fun _ => hrel⟩
  · rw [if_neg hk] at hrel
    have hlt := of_decide_eq_true hrel
    exact ⟨Nat.le_of_lt hlt, fun he => absurd he hk⟩

/-- C3 (witness): the amended ordering statement at a concrete run. -/
theorem c3_group_sorted_witness :
    sortKeyOf "profile" "Event Name" (c3_actual.rows.getD 0 []) ≤
      sortKeyOf "profile" "Event Name" (c3_actual.rows.getD 1 []) ∧
    (sortKeyOf "profile" "Event Name" (c3_actual.rows.getD 0 []) =
        sortKeyOf "profile" "Event Name" (c3_actual.rows.getD 1 []) →
      valLE (getV (c3_actual.rows.getD 0 []) "Repeat Instance")
        (getV (c3_actual.rows.getD 1 []) "Repeat Instance") = true) :=
  c3_group_sorted "profile" "period" c3_input c3_actual (by decide) 0 1 (by decide)
    (by decide) (by decide)

/-- C4: a period row whose five key fields are all empty in the spec's
sense — here a whitespace-only title with the other four fields absent —
does appear in the output, even though its subject also qualifies through
another, titled period row: the mixed absent/whitespace case defeats the
line 27 filter (`NaN.str.strip() == ''` is `False`). -/
theorem c4_blank_period_kept :
    clean_and_align_redcap_data c4_input "profile" "period" "Record ID" "Event Name" =
      .ok c4_actual ∧
    (c4_actual.rows.any fun r => eventMatches "Event Name" "period" r &&
      keyFields.all (fun k => specEmptyCell (getV r k))) = true := by
  decide

/-- C5 (counterexample): the caller's table is not left unchanged — line 15
writes the lowercased event column back into the caller's frame, so after
the call the mixed-case event label is gone. -/
theorem c5_input_is_mutated : mutatedInput c5_input "Event Name" ≠ c5_input := by
  decide

/-- C5 (amended): the mutation is confined to the event column.  After the
call the caller's table has the same columns, the same number of rows in
the same order, every non-event field of every row unchanged, and each
event cell replaced by its lowercased value. -/
theorem c5_mutation_only_event (df : Table) (ec : String)
    (hc : colMem df.cols ec = true) :
    (mutatedInput df ec).cols = df.cols ∧
    (mutatedInput df ec).rows.length = df.rows.length ∧
    (∀ i k, ¬ k = ec →
      getV ((mutatedInput df ec).rows.getD i []) k = getV (df.rows.getD i []) k) ∧
    (∀ i, getV ((mutatedInput df ec).rows.getD i []) ec =
      lowerVal (getV (df.rows.getD i []) ec)) := by
  have hmut : mutatedInput df ec = ⟨df.cols, lrows df ec⟩ := by
    unfold mutatedInput
    rw [if_pos hc]
  rw [hmut]
  refine ⟨rfl, List.length_map df.rows _, ?_, ?_⟩
  · intro i k hk
    show getV ((df.rows.map (lowerEventRow ec)).getD i []) k = getV (df.rows.getD i []) k
    rw [getD_map_row df.rows (lowerEventRow ec) rfl i]
    exact getV_lowerEventRow_ne ec (df.rows.getD i []) k hk
  · intro i
    show getV ((df.rows.map (lowerEventRow ec)).getD i []) ec =
      lowerVal (getV (df.rows.getD i []) ec)
    rw [getD_map_row df.rows (lowerEventRow ec) rfl i]
    exact getV_lowerEventRow_self ec (df.rows.getD i [])

/-- C5 (witness): the amended mutation statement at a concrete table. -/
theorem c5_mutation_only_event_witness :
    (mutatedInput c5_input "Event Name").cols = c5_input.cols ∧
    (mutatedInput c5_input "Event Name").rows.length = c5_input.rows.length ∧
    (∀ i k, ¬ k = "Event Name" →
      getV ((mutatedInput c5_input "Event Name").rows.getD i []) k =
        getV (c5_input.rows.getD i []) k) ∧
    (∀ i, getV ((mutatedInput c5_input "Event Name").rows.getD i []) "Event Name" =
      lowerVal (getV (c5_input.rows.getD i []) "Event Name")) :=
  c5_mutation_only_event c5_input "Event Name" (by decide)

/-- C6 (counterexample): with an empty profile pattern the function does
not fail — it returns a result (the empty pattern is contained in every
present event label, so every such row is profile-classified). -/
theorem c6_empty_pattern_no_error :
    clean_and_align_redcap_data c6_input "" "period" "Record ID" "Event Name" =
      .ok c6_actual := by
  decide

/-- C6 (amended): the function performs no pattern validation.  With an
empty profile or period pattern (and the required columns present) it
still returns a result, and the empty pattern matches every string. -/
theorem c6_empty_pattern_accepted (df : Table) (pp qp : String)
    (hemp : pp = "" ∨ qp = "")
    (h : requiredColsB df.cols "Record ID" "Event Name" = true) :
    (∃ out, clean_and_align_redcap_data df pp qp "Record ID" "Event Name" = .ok out) ∧
    (∀ s : String, containsSub s "" = true) :=
  ⟨⟨_, align_ok_of_required df pp qp "Record ID" "Event Name" h⟩,
   fun s => containsSub_empty s⟩

/-- C6 (witness): the amended statement at a concrete table with an empty
profile pattern. -/
theorem c6_empty_pattern_accepted_witness :
    (∃ out, clean_and_align_redcap_data c6_input "" "period" "Record ID" "Event Name" =
      .ok out) ∧
    (∀ s : String, containsSub s "" = true) :=
  c6_empty_pattern_accepted c6_input "" "period" (Or.inl rfl) (by decide)

/-- C7: on a zero-row table that has the required columns, the function
returns a zero-row table and no error. -/
theorem c7_empty_table (cols : List String) (pp qp idc ec : String)
    (h : requiredColsB cols idc ec = true) :
    ∃ out, clean_and_align_redcap_data ⟨cols, []⟩ pp qp idc ec = .ok out ∧
      out.rows = [] := by
  refine ⟨_, align_ok_of_required ⟨cols, []⟩ pp qp idc ec h, ?_⟩
  rfl

/-- C7 (witness): the empty-table statement at the concrete column set. -/
theorem c7_empty_table_witness :
    ∃ out, clean_and_align_redcap_data ⟨baseCols, []⟩ "profile" "period"
      "Record ID" "Event Name" = .ok out ∧ out.rows = [] :=
  c7_empty_table baseCols "profile" "period" "Record ID" "Event Name" (by decide)

/-- C8: a period-classified row with a numeric value in one of the five
key fields survives the blank-period filter: it stays present for the
line 26 `dropna`, it defeats the line 27 all-blank test, and it remains in
the surviving period partition. -/
theorem c8_numeric_key_survives (df : Table) (qp ec : String) (r : Row)
    (hr : r ∈ periRowsAll df qp ec) (k : String) (hk : k ∈ keyFields)
    (n : Int) (hv : getV r k = some (Value.num n)) :
    r ∈ periRows df qp ec ∧ hasPresentKey r = true ∧ allKeysBlankStr r = false := by
  have hpk : hasPresentKey r = true := by
    unfold hasPresentKey
    rw [List.any_eq_true]
    exact ⟨k, hk, by rw [hv]; rfl⟩
  have hbl : allKeysBlankStr r = false := by
    cases hb : allKeysBlankStr r
    · rfl
    · have hck := List.all_eq_true.mp hb k hk
      rw [hv] at hck
      exact absurd hck (by simp [cellBlankStr])
  refine ⟨?_, hpk, hbl⟩
  unfold periRows
  exact List.mem_filter.mpr ⟨List.mem_filter.mpr ⟨hr, hpk⟩, by rw [hbl]; rfl⟩

/-- C8 (witness): a concrete numeric-keyed period row survives. -/
theorem c8_numeric_key_survives_witness :
    c8_row ∈ periRows c8_input "period" "Event Name" ∧
    hasPresentKey c8_row = true ∧ allKeysBlankStr c8_row = false :=
  c8_numeric_key_survives c8_input "period" "Event Name" c8_row (by decide)
    "Publication Year" (by decide) 2021 (by decide)

/-- C9 (counterexample): idempotence fails as claimed.  On `c9_input` the
output `c9_once` satisfies the spec's pairing invariant, yet running the
function on `c9_once` does not return `c9_once`: the row matching both
patterns lands in both partitions again and is duplicated further. -/
theorem c9_idempotence_counterexample :
    clean_and_align_redcap_data c9_input "profile" "period" "Record ID" "Event Name" =
      .ok c9_once ∧
    pairingInvB c9_once "profile" "period" "Record ID" "Event Name" = true ∧
    clean_and_align_redcap_data c9_once "profile" "period" "Record ID" "Event Name" ≠
      .ok c9_once := by
  decide

/-- C9 (amended): the function is idempotent on its own output provided,
in addition to the pairing invariant, no output row's event matches both
patterns (a both-pattern row is duplicated on every pass, defeating
idempotence, as the counterexample shows). -/
theorem c9_idempotent_no_dual (pp qp : String) (t out : Table)
    (h : clean_and_align_redcap_data t pp qp "Record ID" "Event Name" = .ok out)
    (hpair : pairingInvB out pp qp "Record ID" "Event Name" = true)
    (hnd : ∀ r ∈ out.rows, ¬(eventMatches "Event Name" pp r = true ∧
      eventMatches "Event Name" qp r = true)) :
    clean_and_align_redcap_data out pp qp "Record ID" "Event Name" = .ok out :=
  align_fixpoint pp qp t out h hnd

/-- C9 (witness): idempotence at a concrete clean run. -/
theorem c9_idempotent_no_dual_witness :
    clean_and_align_redcap_data c9w_once "profile" "period" "Record ID" "Event Name" =
      .ok c9w_once :=
  c9_idempotent_no_dual "profile" "period" c9w_input c9w_once (by decide) (by decide)
    (by decide)

/-- C10: a row whose event cell is missing matches neither pattern after
the lowercasing (`str.contains(..., na=False)` is `False` on `NaN`), so it
reaches neither partition and never appears in the output; and, the
required columns being present, the function does not fail on such a row —
every output row in fact carries a present event cell. -/
theorem c10_null_event_rows (pp qp : String) (df : Table)
    (h : requiredColsB df.cols "Record ID" "Event Name" = true) :
    (∃ out, clean_and_align_redcap_data df pp qp "Record ID" "Event Name" = .ok out ∧
      ∀ r ∈ out.rows, getV r "Event Name" ≠ none) ∧
    (∀ (r : Row) (pat : String), getV r "Event Name" = none →
      eventMatches "Event Name" pat (lowerEventRow "Event Name" r) = false) := by
  constructor
  · refine ⟨_, align_ok_of_required df pp qp "Record ID" "Event Name" h, ?_⟩
    intro r hr hne
    obtain ⟨r2, hr2, hdr⟩ :=
      (mem_alignRows df pp qp "Record ID" "Event Name" r).mp hr
    have hstr : ∃ s, getV r2 "Event Name" = some (Value.str s) := by
      rcases hr2 with h2 | h2
      · exact eventMatches_some_str "Event Name" pp r2
          (profKept_elim df pp qp "Record ID" "Event Name" r2 h2).2.1
      · exact eventMatches_some_str "Event Name" qp r2
          (periKept_elim df pp qp "Record ID" "Event Name" r2 h2).2.1
    obtain ⟨s, hs⟩ := hstr
    rw [← hdr, getV_dropSK r2 "Event Name" (by decide), hs] at hne
    exact absurd hne (by simp)
  · intro r pat hnone
    unfold eventMatches
    rw [getV_lowerEventRow_self, hnone]
    rfl

/-- C10 (witness): the null-event statement at a concrete table containing
a missing-event row. -/
theorem c10_null_event_rows_witness :
    (∃ out, clean_and_align_redcap_data c10_input "profile" "period" "Record ID"
      "Event Name" = .ok out ∧ ∀ r ∈ out.rows, getV r "Event Name" ≠ none) ∧
    (∀ (r : Row) (pat : String), getV r "Event Name" = none →
      eventMatches "Event Name" pat (lowerEventRow "Event Name" r) = false) :=
  c10_null_event_rows "profile" "period" c10_input (by decide)

end RedcapClean
